import Mathlib

/-!
Verification development for the PN_URL_Monitor repository.

Shallow embedding of:
- src/monitoring-agent/monitor.py  (ConfigValidator, URLMonitor.check_url,
  URLMonitor.monitor_urls)
- src/azure-function/__init__.py   (analyze_logs, is_in_cooldown,
  set_cooldown, send_alerts, main)

Modelling conventions:
- Timestamps are natural numbers.  The source stores ISO-8601 UTC strings;
  their lexicographic order agrees with chronological order, so sorting and
  comparing Nat timestamps is order-isomorphic to the source behaviour.
- Network effects are oracles: each probe attempt is an `Attempt` value
  supplied by a function `Nat -> Attempt` indexed by attempt number; an
  unexpected (non-RequestException) exception is modelled by `Except.error`,
  matching Python exception propagation.
- Sleeping is accounted by summing the slept amounts (`sleepTotal`).
- Response times are oracle-supplied numbers; the source rounds wall-clock
  milliseconds, which no claim depends on.
-/

namespace PNMon

/-- Status strings used by the source: "UP", "DOWN", "ERROR". Kept as strings,
exactly as the Python code compares them. -/
abbrev Status := String

/-- One configured target (an entry of config monitoring.urls), as consumed by
URLMonitor.check_url: keys url, name, expected_status.  The optional headers
entry only feeds the HTTP request, which is absorbed into the attempt oracle. -/
structure UrlConfig where
  url : String
  name : String
  expected_status : Int
deriving DecidableEq, Repr

/-- Result dictionary built by URLMonitor.check_url (monitor.py lines 114-122):
url, name, timestamp, status, response_time, status_code, error. -/
structure CheckResult where
  url : String
  name : String
  timestamp : Nat
  status : Status
  response_time : Option Nat
  status_code : Option Int
  error : Option String
deriving DecidableEq, Repr

/-- Outcome of one HTTP GET attempt, as seen by the try/except in check_url:
a response (with status code and elapsed milliseconds), a RequestException
(caught, message recorded), or an unexpected exception (propagates). -/
inductive Attempt where
  | resp (code : Int) (rtMs : Nat)
  | reqExn (msg : String)
  | unexpected (msg : String)
deriving DecidableEq, Repr

/-- Value returned by the check_url model: the result record plus the number
of HTTP requests issued and the total time slept between retries. -/
structure CheckOutcome where
  result : CheckResult
  requests : Nat
  sleepTotal : Nat
deriving DecidableEq, Repr

/-- Initial result dictionary of check_url (monitor.py lines 114-122). -/
def initResult (uc : UrlConfig) (now : Nat) : CheckResult :=
  { url := uc.url, name := uc.name, timestamp := now, status := "DOWN",
    response_time := none, status_code := none, error := none }

/-- Loop body of check_url (monitor.py lines 124-148).  `remaining` counts the
attempts still to run (including the current one); `i` is the current attempt
index (the Python loop variable `attempt`).  The Python guard
`attempt < max_retries - 1` holds exactly when `remaining` is not 1, i.e. the
tail `remaining` after decrement is nonzero. -/
def check_url_go (expected : Int) (retry_delay : Nat) (oracle : Nat → Attempt) :
    Nat → Nat → CheckResult → Nat → Nat → Except String CheckOutcome
  | _, 0, res, sleepAcc, reqs => .ok ⟨res, reqs, sleepAcc⟩
  | i, remaining + 1, res, sleepAcc, reqs =>
    match oracle i with
    | .unexpected msg => .error msg
    | .resp code rt =>
      let res2 : CheckResult :=
        { res with
          status := if code = expected then "UP" else "DOWN",
          response_time := some rt,
          status_code := some code }
      if res2.status = "UP" then .ok ⟨res2, reqs + 1, sleepAcc⟩
      else check_url_go expected retry_delay oracle (i + 1) remaining res2 sleepAcc (reqs + 1)
    | .reqExn msg =>
      let res2 : CheckResult := { res with error := some msg }
      let sleepAcc2 := if remaining = 0 then sleepAcc else sleepAcc + retry_delay
      check_url_go expected retry_delay oracle (i + 1) remaining res2 sleepAcc2 (reqs + 1)

/-- Model of URLMonitor.check_url (monitor.py lines 106-150).  `max_retries`
is an Int because the config validator accepts any Python int; Python
`range(n)` of a non-positive int is empty, which `Int.toNat` reproduces. -/
def check_url (uc : UrlConfig) (max_retries : Int) (retry_delay : Nat)
    (oracle : Nat → Attempt) (now : Nat) : Except String CheckOutcome :=
  check_url_go uc.expected_status retry_delay oracle 0 max_retries.toNat
    (initResult uc now) 0 0

/-- Error record appended by monitor_urls when check_url raises
(monitor.py lines 160-168); the Python dict carries only the five keys shown,
so the remaining fields are none. -/
def errorResult (uc : UrlConfig) (now : Nat) (msg : String) : CheckResult :=
  { url := uc.url, name := uc.name, timestamp := now, status := "ERROR",
    response_time := none, status_code := none, error := some msg }

/-- Per-target step of monitor_urls: use the check result, or catch the
exception and build the ERROR record. -/
def applyCheck (check : UrlConfig → Except String CheckResult) (now : Nat)
    (uc : UrlConfig) : CheckResult :=
  match check uc with
  | .ok r => r
  | .error e => errorResult uc now e

/-- Model of URLMonitor.monitor_urls (monitor.py lines 152-170): iterate the
configured targets in order, appending one result each; a raised exception is
caught per target and converted to an ERROR record. -/
def monitor_urls (check : UrlConfig → Except String CheckResult) (now : Nat)
    (urls : List UrlConfig) : List CheckResult :=
  urls.foldl (fun results uc => results ++ [applyCheck check now uc]) []

/-! Azure-function alerting core: analyze_logs, cooldown store, send_alerts. -/

/-- One log record as read back from the backend API (the shape written by
monitor_urls): fields url, name, timestamp, status used by analyze_logs. -/
structure LogRecord where
  url : String
  name : String
  timestamp : Nat
  status : Status
deriving DecidableEq, Repr

/-- Alert dictionary built in analyze_logs (azure-function lines 93-99). -/
structure Alert where
  url : String
  name : String
  consecutive_failures : Nat
  last_status : Status
  last_check : Nat
deriving DecidableEq, Repr

/-- Sort key of analyze_logs (azure-function line 80): the record timestamp,
ascending. -/
def tsLe (a b : LogRecord) : Prop := a.timestamp ≤ b.timestamp

instance : DecidableRel tsLe := fun a b => Nat.decLe a.timestamp b.timestamp

instance : IsTotal LogRecord tsLe := ⟨fun a b => Nat.le_total a.timestamp b.timestamp⟩

instance : IsTrans LogRecord tsLe := ⟨fun _ _ _ h1 h2 => Nat.le_trans h1 h2⟩

/-- One step of the grouping loop of analyze_logs (azure-function lines
70-75): a Python dict of url to list of records, modelled as an association
list in key insertion order; appending a record to its url group, creating
the group on first sight of the url. -/
def insertLog (acc : List (String × List LogRecord)) (log : LogRecord) :
    List (String × List LogRecord) :=
  if acc.any (fun p => p.1 == log.url) then
    acc.map (fun p => if p.1 == log.url then (p.1, p.2 ++ [log]) else p)
  else
    acc ++ [(log.url, [log])]

/-- Grouping of analyze_logs: fold insertLog over the input records. -/
def groupByUrl (logs : List LogRecord) : List (String × List LogRecord) :=
  logs.foldl insertLog []

/-- Count of leading records with status DOWN; applied to the reversed sorted
group it is the consecutive-failure count of azure-function lines 83-88
(scan most recent first, stop at the first non-DOWN record). -/
def countDownRun : List LogRecord → Nat
  | [] => 0
  | r :: rs => if r.status = "DOWN" then countDownRun rs + 1 else 0

/-- Per-url body of the analysis loop (azure-function lines 78-101): sort the
group by timestamp ascending (Python list.sort is stable; so is insertion
sort), count trailing consecutive failures, and emit the alert dictionary iff
the count reaches the threshold and the url is not in cooldown.  The empty
case is unreachable: groupByUrl only creates nonempty groups. -/
def alertFor (threshold : Nat) (suppressed : String → Bool) (url : String)
    (group : List LogRecord) : Option Alert :=
  let sorted := List.insertionSort tsLe group
  let cf := countDownRun sorted.reverse
  if threshold ≤ cf ∧ suppressed url = false then
    match sorted with
    | [] => none
    | first :: rest =>
      some { url := url, name := first.name, consecutive_failures := cf,
             last_status := ((first :: rest).getLast (List.cons_ne_nil first rest)).status,
             last_check := ((first :: rest).getLast (List.cons_ne_nil first rest)).timestamp }
  else none

/-- Model of analyze_logs (azure-function lines 65-103), with the threshold
and the cooldown predicate (the value of is_in_cooldown at analysis time) as
parameters; urls are grouped once, so each url is queried at most once and a
pure predicate is faithful for a single run. -/
def analyze_logs (threshold : Nat) (suppressed : String → Bool)
    (logs : List LogRecord) : List Alert :=
  (groupByUrl logs).foldl
    (fun alerts g => alerts ++ (alertFor threshold suppressed g.1 g.2).toList) []

/-- Consecutive-failure count of a url over a log list, phrased the way the
spec describes it (group = records of that url, sorted ascending, trailing
DOWN run); used to state the analyzer claims. -/
def trailingFailures (u : String) (logs : List LogRecord) : Nat :=
  countDownRun (List.insertionSort tsLe (logs.filter (fun r => r.url == u))).reverse

/-- Keys of a grouped log association list, in insertion order. -/
def keysOf (gs : List (String × List LogRecord)) : List String :=
  gs.map Prod.fst

/-- Group stored under a url in a grouped log association list. -/
def lookupGroup (gs : List (String × List LogRecord)) (u : String) :
    Option (List LogRecord) :=
  (gs.find? (fun p => p.1 == u)).map (fun p => p.2)

/-! Cooldown store (azure-function lines 105-140).  The blob container is an
association list from blob name to last-modified time (in minutes); a missing
client (STORAGE_CONNECTION_STRING empty) makes both operations no-ops. -/

/-- Persistent cooldown store state: blob name to last-modified minutes. -/
abbrev CooldownState := List (String × Nat)

/-- Blob name normalization of azure-function lines 111 and 136. -/
def blobName (url : String) : String :=
  "cooldown_" ++ ((url.replace "://" "_").replace "/" "_")

/-- Model of set_cooldown (azure-function lines 130-140): overwriting upload
of the url blob; its last-modified time becomes the current time. -/
def set_cooldown (hasClient : Bool) (state : CooldownState) (now : Nat)
    (url : String) : CooldownState :=
  if hasClient then
    (state.filter (fun p => !(p.1 == blobName url))) ++ [(blobName url, now)]
  else state

/-- Model of is_in_cooldown (azure-function lines 105-128): look up the blob;
in cooldown iff now is before last-modified plus the window; an expired blob
is deleted (lazy expiry) and the answer is false; a missing blob or missing
client gives false.  Returns the answer and the updated store. -/
def is_in_cooldown (hasClient : Bool) (window : Nat) (state : CooldownState)
    (now : Nat) (url : String) : Bool × CooldownState :=
  if hasClient then
    match state.find? (fun p => p.1 == blobName url) with
    | some p =>
      if now < p.2 + window then (true, state)
      else (false, state.filter (fun q => !(q.1 == blobName url)))
    | none => (false, state)
  else (false, state)

/-! Alert dispatch (azure-function lines 142-190) and the event trace of one
invocation of main (lines 24-52). -/

/-- Discord embed payload built per alert (azure-function lines 149-172). -/
structure Embed where
  title : String
  description : String
  color : Nat
  fields : List (String × String × Bool)
deriving DecidableEq, Repr

/-- Payload for one alert, as formatted by send_alerts. -/
def alertMessage (a : Alert) : Embed :=
  { title := "🚨 URL Monitoring Alert",
    description := "URL has been down for " ++ toString a.consecutive_failures
      ++ " consecutive checks",
    color := 16711680,
    fields := [("URL Name", a.name, true), ("URL", a.url, true),
               ("Last Check", toString a.last_check, true)] }

/-- Observable events of one azure-function invocation: a webhook POST for a
url with its payload, the pacing sleep after a successful POST, and a
cooldown write for a url. -/
inductive Ev where
  | send (url : String) (payload : Embed)
  | sleepPause
  | setCooldown (url : String)
deriving DecidableEq, Repr

/-- Loop of send_alerts over the alert list (azure-function lines 148-190):
one POST per alert; on success (raise_for_status passes) a pacing sleep
follows; on RequestException the error is logged and the loop continues.
`outcome i` tells whether the POST for the i-th alert succeeded. -/
def sendLoop (outcome : Nat → Bool) : Nat → List Alert → List Ev
  | _, [] => []
  | i, a :: rest =>
    if outcome i then
      Ev.send a.url (alertMessage a) :: Ev.sleepPause :: sendLoop outcome (i + 1) rest
    else
      Ev.send a.url (alertMessage a) :: sendLoop outcome (i + 1) rest

/-- Model of send_alerts (azure-function lines 142-190): without a configured
webhook it only logs a warning and returns; otherwise it runs the send loop. -/
def send_alerts (webhookConfigured : Bool) (outcome : Nat → Bool)
    (alerts : List Alert) : List Ev :=
  if webhookConfigured then sendLoop outcome 0 alerts else []

/-- Projection of a trace to its webhook POSTs, in order. -/
def sendsOf (tr : List Ev) : List (String × Embed) :=
  tr.filterMap (fun e =>
    match e with
    | .send u p => some (u, p)
    | _ => none)

/-- Whether an event is a cooldown write. -/
def evIsSetCooldown (e : Ev) : Bool :=
  match e with
  | .setCooldown _ => true
  | _ => false

/-- Event trace of one invocation of main (azure-function lines 34-52):
analyze_logs runs first and calls set_cooldown immediately after appending
each alert (lines 93-101), so all cooldown writes happen during analysis;
send_alerts runs afterwards on the collected alerts.  The `if alerts` and
empty-logs guards of main drop nothing from the trace (both sides are empty
in those cases). -/
def mainTrace (threshold : Nat) (suppressed : String → Bool)
    (webhookConfigured : Bool) (outcome : Nat → Bool)
    (logs : List LogRecord) : List Ev :=
  let alerts := analyze_logs threshold suppressed logs
  (alerts.map (fun a => Ev.setCooldown a.url))
    ++ send_alerts webhookConfigured outcome alerts

/-! Config validation (monitor.py lines 29-73).  Configurations come from
json.load, so they are arbitrary JSON values; the validator inspects them
dynamically and catches any exception.  JSON booleans are left out of the
value universe: no claim involves them (Python treats bool as a subtype of
int, an aspect orthogonal to every claim). -/

/-- JSON values as loaded by json.load.  `jfloat` is a non-integer number
whose numeric value no validated code path inspects (only the int-valued
max_urls is ever compared). -/
inductive JVal where
  | jnull
  | jint (n : Int)
  | jfloat
  | jstr (s : String)
  | jarr (xs : List JVal)
  | jobj (kvs : List (String × JVal))

/-- Dictionary lookup: the value of a key in an object, none otherwise. -/
def objGet (v : JVal) (k : String) : Option JVal :=
  match v with
  | .jobj kvs => (kvs.find? (fun p => p.1 == k)).map (fun p => p.2)
  | _ => none

/-- Python d.get(k, dflt): defaulting lookup on a dict; on a non-dict an
AttributeError is raised. -/
def jGet (v : JVal) (k : String) (dflt : JVal) : Except String JVal :=
  match v with
  | .jobj _ => .ok ((objGet v k).getD dflt)
  | _ => .error "AttributeError: get"

/-- Python d[k] with a string key: KeyError on a dict missing the key,
TypeError on values not subscriptable by a string. -/
def jIndex (v : JVal) (k : String) : Except String JVal :=
  match v with
  | .jobj _ =>
    match objGet v k with
    | some x => .ok x
    | none => .error "KeyError"
  | _ => .error "TypeError: not subscriptable by a string key"

/-- Python `k in v` for a string k: key membership on dicts, element equality
on lists (a string equals only an equal string), substring test on strings,
TypeError otherwise. -/
def pyContains (v : JVal) (k : String) : Except String Bool :=
  match v with
  | .jobj kvs => .ok (kvs.any (fun p => p.1 == k))
  | .jarr xs =>
    .ok (xs.any (fun x =>
      match x with
      | .jstr s => s == k
      | _ => false))
  | .jstr s => .ok (decide ((s.splitOn k).length > 1))
  | _ => .error "TypeError: not iterable"

/-- Python isinstance(v, (int, float)). -/
def isNumber (v : JVal) : Bool :=
  match v with
  | .jint _ => true
  | .jfloat => true
  | _ => false

/-- Python isinstance(v, int). -/
def isIntVal (v : JVal) : Bool :=
  match v with
  | .jint _ => true
  | _ => false

/-- Python isinstance(v, list). -/
def isListVal (v : JVal) : Bool :=
  match v with
  | .jarr _ => true
  | _ => false

/-- Characters allowed after the first one in a URL scheme. -/
def schemeChars (c : Char) : Bool :=
  c.isAlphanum || c == '+' || c == '-' || c == '.'

/-- Split a character list at the first colon, if any. -/
def splitAtColon : List Char → Option (List Char × List Char)
  | [] => none
  | c :: cs =>
    if c == ':' then some ([], cs)
    else
      match splitAtColon cs with
      | some (pre, rest) => some (c :: pre, rest)
      | none => none

/-- Scheme extraction of urllib.parse.urlparse: the part before the first
colon is the scheme iff it is nonempty, starts with a letter, and consists of
letters, digits, plus, minus, dot; the scheme is lowercased. -/
def parseScheme (s : List Char) : String × List Char :=
  match splitAtColon s with
  | some (pre, rest) =>
    match pre with
    | [] => ("", s)
    | c :: _ =>
      if c.isAlpha && pre.all schemeChars then
        (String.mk (pre.map Char.toLower), rest)
      else ("", s)
  | none => ("", s)

/-- Netloc characters: everything up to the first slash, question mark or
hash after the leading double slash. -/
def takeNetloc : List Char → List Char
  | [] => []
  | c :: cs =>
    if c == '/' || c == '?' || c == '#' then []
    else c :: takeNetloc cs

/-- Scheme and netloc of urllib.parse.urlparse: the netloc is present iff the
remainder after the scheme starts with a double slash. -/
def urlparse (s : String) : String × String :=
  match parseScheme s.toList with
  | (scheme, rest) =>
    match rest with
    | '/' :: '/' :: tail => (scheme, String.mk (takeNetloc tail))
    | _ => (scheme, "")

/-- Model of ConfigValidator.validate_url (monitor.py lines 31-37): parse the
url, require a nonempty scheme and netloc (Python truthiness of the strings)
and the scheme to be in the list containing exactly "https"; any exception
(urlparse on a non-string) yields false. -/
def validate_url (v : JVal) : Bool :=
  match v with
  | .jstr s =>
    decide (((urlparse s).1 ≠ "" ∧ (urlparse s).2 ≠ "") ∧ (urlparse s).1 = "https")
  | _ => false

/-- The per-target loop of validate_config (monitor.py lines 65-69): each
entry must contain the keys name, url, expected_status (checked left to
right, short-circuiting) and have a url accepted by validate_url. -/
def validateUrls : List JVal → Except String Bool
  | [] => .ok true
  | uc :: rest => do
    let h1 ← pyContains uc "name"
    if !h1 then return false
    let h2 ← pyContains uc "url"
    if !h2 then return false
    let h3 ← pyContains uc "expected_status"
    if !h3 then return false
    let uv ← jIndex uc "url"
    if !(validate_url uv) then return false
    validateUrls rest

/-- Body of ConfigValidator.validate_config before the exception handler
(monitor.py lines 42-71), with Python evaluation order (each .get is
evaluated just before its isinstance test; the or-chains short-circuit).
An exception escaping any step is the error case. -/
def validate_config_core (config : JVal) : Except String Bool := do
  let monitoring ← jGet config "monitoring" (.jobj [])
  let security ← jGet config "security" (.jobj [])
  let v1 ← jGet monitoring "interval_minutes" .jnull
  if !(isNumber v1) then return false
  let v2 ← jGet monitoring "timeout_seconds" .jnull
  if !(isNumber v2) then return false
  let v3 ← jGet monitoring "max_retries" .jnull
  if !(isIntVal v3) then return false
  let v4 ← jGet monitoring "retry_delay_seconds" .jnull
  if !(isNumber v4) then return false
  let s1 ← jGet security "max_urls" .jnull
  if !(isIntVal s1) then return false
  let s2 ← jGet security "allowed_schemes" .jnull
  if !(isListVal s2) then return false
  let s3 ← jGet security "max_timeout_seconds" .jnull
  if !(isNumber s3) then return false
  let s4 ← jGet security "max_interval_minutes" .jnull
  if !(isNumber s4) then return false
  let urls ← jGet monitoring "urls" (.jarr [])
  match urls with
  | .jarr xs => do
    let mu ← jIndex security "max_urls"
    match mu with
    | .jint m =>
      if (xs.length : Int) > m then return false
      validateUrls xs
    | _ =>
      -- Unreachable: the isinstance int check above guarantees an int here;
      -- Python comparison of int with a non-number would raise TypeError.
      .error "TypeError: unorderable"
  | _ => return false

/-- Model of ConfigValidator.validate_config (monitor.py lines 40-73): the
body with its try/except turning any exception into false. -/
def validate_config (config : JVal) : Bool :=
  match validate_config_core config with
  | .ok b => b
  | .error _ => false

/-- Validity of one target, following the words of spec section 4.1: the
entry has name, url and expected_status, and the url parses as an absolute
URL (nonempty netloc) with scheme exactly https. -/
def specValidTarget (t : JVal) : Bool :=
  match t with
  | .jobj _ =>
    (objGet t "name").isSome &&
    (match objGet t "url" with
     | some (.jstr s) => decide ((urlparse s).1 = "https" ∧ (urlparse s).2 ≠ "")
     | _ => false) &&
    (objGet t "expected_status").isSome
  | _ => false

/-- Validity of a whole configuration, following the words of spec section
4.1: numeric interval, timeout and retry delay; a non-negative integer
max_retries; an integer max_urls; a non-empty allowed_schemes list; numeric
max_timeout_seconds and max_interval_minutes; a target list not exceeding
max_urls, all of whose entries are valid targets. -/
def specValidConfig (c : JVal) : Bool :=
  match objGet c "monitoring", objGet c "security" with
  | some mon, some sec =>
    isNumber ((objGet mon "interval_minutes").getD .jnull) &&
    isNumber ((objGet mon "timeout_seconds").getD .jnull) &&
    (match objGet mon "max_retries" with
     | some (.jint n) => decide (0 ≤ n)
     | _ => false) &&
    isNumber ((objGet mon "retry_delay_seconds").getD .jnull) &&
    (match objGet sec "allowed_schemes" with
     | some (.jarr l) => !l.isEmpty
     | _ => false) &&
    isNumber ((objGet sec "max_timeout_seconds").getD .jnull) &&
    isNumber ((objGet sec "max_interval_minutes").getD .jnull) &&
    (match objGet sec "max_urls", objGet mon "urls" with
     | some (.jint m), some (.jarr xs) =>
       decide ((xs.length : Int) ≤ m) && xs.all specValidTarget
     | _, _ => false)
  | _, _ => false

/-! Concrete inputs used by witnesses and counterexamples. -/

/-- Example well-formed target entry. -/
def goodTarget : JVal :=
  .jobj [("name", .jstr "example"), ("url", .jstr "https://example.com/health"),
         ("expected_status", .jint 200)]

/-- Example monitoring section with a given max_retries value. -/
def goodMonitoring (retries : Int) : JVal :=
  .jobj [("interval_minutes", .jint 5), ("timeout_seconds", .jint 10),
         ("max_retries", .jint retries), ("retry_delay_seconds", .jint 2),
         ("urls", .jarr [goodTarget])]

/-- Example well-formed security section. -/
def goodSecurity : JVal :=
  .jobj [("max_urls", .jint 10), ("allowed_schemes", .jarr [.jstr "https"]),
         ("max_timeout_seconds", .jint 30), ("max_interval_minutes", .jint 60)]

/-- Fully valid configuration. -/
def goodConfig : JVal :=
  .jobj [("monitoring", goodMonitoring 3), ("security", goodSecurity)]

/-- Configuration identical to goodConfig except max_retries is -1. -/
def cfgNegRetries : JVal :=
  .jobj [("monitoring", goodMonitoring (-1)), ("security", goodSecurity)]

/-- Example url under monitoring. -/
def exUrl : String := "https://service.example/api"

/-- Log record for exUrl with a given timestamp and status. -/
def mkLog (ts : Nat) (st : Status) : LogRecord :=
  { url := exUrl, name := "service", timestamp := ts, status := st }

/-- History UP, DOWN, DOWN, DOWN (most recent last). -/
def exLogsA : List LogRecord :=
  [mkLog 1 "UP", mkLog 2 "DOWN", mkLog 3 "DOWN", mkLog 4 "DOWN"]

/-- History DOWN, DOWN, UP (most recent last). -/
def exLogsB : List LogRecord :=
  [mkLog 1 "DOWN", mkLog 2 "DOWN", mkLog 3 "UP"]

/-- Cooldown predicate that suppresses nothing. -/
def noSupp : String → Bool := fun _ => false

/-- Same-url records carrying different names. -/
def c10Logs : List LogRecord :=
  [{ url := exUrl, name := "oldname", timestamp := 1, status := "DOWN" },
   { url := exUrl, name := "newname", timestamp := 2, status := "DOWN" }]

/-- Target whose check succeeds. -/
def ucGood : UrlConfig := { url := "https://a.example", name := "a", expected_status := 200 }

/-- Target whose check raises an unexpected exception. -/
def ucBad : UrlConfig := { url := "https://b.example", name := "bad", expected_status := 200 }

/-- Check oracle failing exactly on ucBad. -/
def checkW : UrlConfig → Except String CheckResult := fun uc =>
  if uc.name == "bad" then .error "boom" else .ok (initResult uc 7)

/-- Alert emitted for c10Logs at threshold 2. -/
def exAlert10 : Alert :=
  { url := exUrl, name := "oldname", consecutive_failures := 2,
    last_status := "DOWN", last_check := 2 }

/-- Alert emitted for exLogsA at threshold 3. -/
def exAlertA : Alert :=
  { url := exUrl, name := "service", consecutive_failures := 3,
    last_status := "DOWN", last_check := 4 }

/-- Probe oracle where every attempt times out. -/
def timeoutOracle (msgs : Nat → String) : Nat → Attempt := fun i => .reqExn (msgs i)

/-- Messages of the timeout oracle. -/
def msgsW : Nat → String := fun i => "timed out " ++ toString i

/-! Helper lemmas. -/

/-- Running check_url_go when every remaining attempt raises a
RequestException: all attempts are consumed, the error field carries the last
message, and one retry delay is slept per attempt except the final one. -/
theorem check_url_go_all_fail (expected : Int) (d : Nat) (oracle : Nat → Attempt)
    (msgs : Nat → String) :
    ∀ (r : Nat) (i : Nat) (res : CheckResult) (sl reqs : Nat), 1 ≤ r →
      (∀ k, i ≤ k → k < i + r → oracle k = Attempt.reqExn (msgs k)) →
      check_url_go expected d oracle i r res sl reqs =
        .ok ⟨{ res with error := some (msgs (i + r - 1)) }, reqs + r, sl + (r - 1) * d⟩ := by
  intro r
  induction r with
  | zero => intro i res sl reqs h1 _; exact absurd h1 (by omega)
  | succ n ih =>
    intro i res sl reqs _ hfail
    have hi : oracle i = Attempt.reqExn (msgs i) := hfail i (le_refl i) (by omega)
    cases n with
    | zero =>
      simp [check_url_go, hi]
    | succ m =>
      have ihm := ih (i + 1) { res with error := some (msgs i) } (sl + d) (reqs + 1)
        (by omega) (fun k hk1 hk2 => hfail k (by omega) (by omega))
      have e1 : i + 1 + (m + 1) - 1 = i + (m + 1 + 1) - 1 := by omega
      have e2 : reqs + 1 + (m + 1) = reqs + (m + 1 + 1) := by omega
      have e3 : sl + d + (m + 1 - 1) * d = sl + (m + 1 + 1 - 1) * d := by
        simp only [Nat.add_sub_cancel]
        rw [Nat.succ_mul]
        omega
      rw [e1, e2, e3] at ihm
      simpa [check_url_go, hi] using ihm

/-- Folding append of a mapped element equals map. -/
theorem foldl_append_eq_map {α β : Type} (f : α → β) :
    ∀ (l : List α) (acc : List β),
      l.foldl (fun rs x => rs ++ [f x]) acc = acc ++ l.map f := by
  intro l
  induction l with
  | nil => intro acc; simp
  | cons x xs ih => intro acc; simp [ih (acc ++ [f x])]

/-- The cycle monitor_urls is the per-target recovery function mapped over
the targets. -/
theorem monitor_urls_eq_map (check : UrlConfig → Except String CheckResult)
    (now : Nat) (urls : List UrlConfig) :
    monitor_urls check now urls = urls.map (applyCheck check now) := by
  simpa [monitor_urls] using foldl_append_eq_map (applyCheck check now) urls []

/-- Element i of a monitoring cycle is the recovered check of target i. -/
theorem monitor_urls_get (check : UrlConfig → Except String CheckResult)
    (now : Nat) (urls : List UrlConfig) (i : Nat) (h1 : i < urls.length) :
    (monitor_urls check now urls)[i]? =
      some (applyCheck check now (urls.get ⟨i, h1⟩)) := by
  rw [monitor_urls_eq_map]
  simp [List.getElem?_eq_getElem, h1, List.get_eq_getElem]

/-- The send loop posts exactly one payload per alert, in order, whatever the
per-send outcomes are. -/
theorem sendsOf_sendLoop (outcome : Nat → Bool) :
    ∀ (alerts : List Alert) (i : Nat),
      sendsOf (sendLoop outcome i alerts) =
        alerts.map (fun a => (a.url, alertMessage a)) := by
  intro alerts
  induction alerts with
  | nil => intro i; rfl
  | cons a rest ih =>
    intro i
    have ihh := ih (i + 1)
    simp only [sendsOf] at ihh ⊢
    by_cases h : outcome i = true
    · simp [sendLoop, h]
      exact ihh
    · simp only [Bool.not_eq_true] at h
      simp [sendLoop, h]
      exact ihh

/-- Searching a predicate on the residue of filtering that predicate away
finds nothing. -/
theorem find?_filter_not_eq_none {α : Type} (p : α → Bool) (l : List α) :
    (l.filter (fun x => !(p x))).find? p = none := by
  rw [List.find?_eq_none]
  intro x hx
  have := List.of_mem_filter hx
  simp at this
  simp [this]

/-- Finding under u in the group-update map of insertLog: the entry found is
the original one, updated iff u is the inserted url. -/
theorem find?_update_map (acc : List (String × List LogRecord)) (log : LogRecord)
    (u : String) :
    (acc.map (fun p => if p.1 == log.url then (p.1, p.2 ++ [log]) else p)).find?
        (fun p => p.1 == u) =
      if u = log.url then
        (acc.find? (fun p => p.1 == u)).map (fun p => (p.1, p.2 ++ [log]))
      else acc.find? (fun p => p.1 == u) := by
  induction acc with
  | nil => by_cases h2 : u = log.url <;> simp [h2]
  | cons p ps ih =>
    simp only [List.map_cons]
    by_cases h3 : p.1 = log.url <;> by_cases h1 : p.1 = u <;>
      by_cases h2 : u = log.url <;>
      simp_all [List.find?_cons, beq_iff_eq]

/-- Inserting a record updates exactly the group stored under its url. -/
theorem lookupGroup_insertLog (acc : List (String × List LogRecord))
    (log : LogRecord) (u : String) :
    lookupGroup (insertLog acc log) u =
      if u = log.url then some ((lookupGroup acc u).getD [] ++ [log])
      else lookupGroup acc u := by
  by_cases h2 : u = log.url
  · subst h2
    rw [if_pos rfl]
    unfold insertLog lookupGroup
    by_cases hmem : acc.any (fun p => p.1 == log.url)
    · rw [if_pos hmem, find?_update_map, if_pos rfl]
      obtain ⟨p, hp⟩ : ∃ p, acc.find? (fun p => p.1 == log.url) = some p := by
        apply Option.isSome_iff_exists.mp
        rw [List.find?_isSome]
        simpa [List.any_eq_true] using hmem
      rw [hp]
      simp
    · rw [if_neg hmem, List.find?_append]
      have hnone : acc.find? (fun p => p.1 == log.url) = none := by
        rw [List.find?_eq_none]
        intro p hp
        have := (List.any_eq_false.mp (Bool.not_eq_true _ ▸ hmem)) p hp
        simp_all
      rw [hnone]
      simp [List.find?]
  · rw [if_neg h2]
    unfold insertLog lookupGroup
    by_cases hmem : acc.any (fun p => p.1 == log.url)
    · rw [if_pos hmem, find?_update_map, if_neg h2]
    · rw [if_neg hmem, List.find?_append]
      have hnone2 : ([(log.url, [log])].find? (fun p => p.1 == u)) = none := by
        rw [List.find?_eq_none]
        intro p hp
        simp only [List.mem_singleton] at hp
        subst hp
        simp only [beq_eq_false_iff_ne, ne_eq, Bool.not_eq_true]
        exact fun hc => h2 hc.symm
      rw [hnone2]
      simp

/-- Folding the grouping step accumulates, per url, exactly the records of
that url in input order. -/
theorem lookupGroup_foldl (u : String) :
    ∀ (logs : List LogRecord) (acc : List (String × List LogRecord)),
      lookupGroup (logs.foldl insertLog acc) u =
        if logs.any (fun r => r.url == u) then
          some ((lookupGroup acc u).getD [] ++ logs.filter (fun r => r.url == u))
        else lookupGroup acc u := by
  intro logs
  induction logs with
  | nil => intro acc; simp
  | cons r rs ih =>
    intro acc
    rw [List.foldl_cons, ih (insertLog acc r), lookupGroup_insertLog]
    by_cases h2 : u = r.url
    · have hhead : (r.url == u) = true := by simp [h2]
      rw [if_pos h2]
      by_cases hrs : rs.any (fun x => x.url == u)
      · simp only [List.any_cons, hhead, Bool.true_or, if_pos, hrs,
          List.filter_cons, Option.getD_some]
        simp [List.append_assoc]
      · simp only [List.any_cons, hhead, Bool.true_or, if_pos, hrs,
          List.filter_cons]
        have hfil : rs.filter (fun x => x.url == u) = [] := by
          rw [List.filter_eq_nil_iff]
          intro a ha
          have := (List.any_eq_false.mp (Bool.not_eq_true _ ▸ hrs)) a ha
          simp_all
        simp [hfil, hrs]
    · have hhead : (r.url == u) = false := by
        simp only [beq_eq_false_iff_ne, ne_eq]
        exact fun hc => h2 hc.symm
      rw [if_neg h2]
      simp [List.any_cons, hhead, List.filter_cons]

/-- The group stored by groupByUrl under u is exactly the u-records of the
input, in order; urls never seen have no group. -/
theorem lookupGroup_groupByUrl (logs : List LogRecord) (u : String) :
    lookupGroup (groupByUrl logs) u =
      if logs.any (fun r => r.url == u) then
        some (logs.filter (fun r => r.url == u))
      else none := by
  have h := lookupGroup_foldl u logs []
  rw [groupByUrl]
  rw [h]
  simp [lookupGroup]

/-- Inserting a record preserves the keys, or appends the new url. -/
theorem keysOf_insertLog (acc : List (String × List LogRecord)) (log : LogRecord) :
    keysOf (insertLog acc log) =
      if acc.any (fun p => p.1 == log.url) then keysOf acc
      else keysOf acc ++ [log.url] := by
  unfold insertLog keysOf
  by_cases hmem : acc.any (fun p => p.1 == log.url)
  · rw [if_pos hmem, if_pos hmem, List.map_map]
    congr 1
    funext p
    by_cases h : p.1 = log.url <;> simp [h]
  · rw [if_neg hmem, if_neg hmem]
    simp

/-- Folding the grouping step keeps the group keys free of duplicates. -/
theorem keysOf_foldl_nodup :
    ∀ (logs : List LogRecord) (acc : List (String × List LogRecord)),
      (keysOf acc).Nodup → (keysOf (logs.foldl insertLog acc)).Nodup := by
  intro logs
  induction logs with
  | nil => intro acc h; exact h
  | cons r rs ih =>
    intro acc h
    rw [List.foldl_cons]
    apply ih
    rw [keysOf_insertLog]
    by_cases hmem : acc.any (fun p => p.1 == r.url)
    · rwa [if_pos hmem]
    · rw [if_neg hmem]
      have hnot : r.url ∉ keysOf acc := by
        intro hc
        obtain ⟨p, hp, hfst⟩ := List.mem_map.mp hc
        have := (List.any_eq_false.mp (Bool.not_eq_true _ ▸ hmem)) p hp
        simp_all
      simp [List.nodup_append, h, hnot]

/-- The groups produced by groupByUrl have pairwise distinct urls. -/
theorem groupByUrl_keys_nodup (logs : List LogRecord) :
    (keysOf (groupByUrl logs)).Nodup :=
  keysOf_foldl_nodup logs [] (by simp [keysOf])

/-- With distinct keys, a member entry is what find? returns for its key. -/
theorem find?_of_mem_nodup :
    ∀ (gs : List (String × List LogRecord)), (keysOf gs).Nodup →
      ∀ g ∈ gs, gs.find? (fun p => p.1 == g.1) = some g := by
  intro gs
  induction gs with
  | nil => intro _ g hg; cases hg
  | cons p ps ih =>
    intro hnd g hg
    have hnd2 : (keysOf ps).Nodup := (List.nodup_cons.mp hnd).2
    have hnotin : p.1 ∉ keysOf ps := (List.nodup_cons.mp hnd).1
    rcases List.mem_cons.mp hg with rfl | hg2
    · simp [List.find?]
    · have hkey : g.1 ∈ keysOf ps := List.mem_map_of_mem Prod.fst hg2
      have hne2 : (p.1 == g.1) = false := by
        rw [beq_eq_false_iff_ne]
        intro hc
        exact hnotin (hc ▸ hkey)
      simp only [List.find?, hne2]
      exact ih hnd2 g hg2

/-- The analyzer analyze_logs is alertFor filter-mapped over the groups. -/
theorem analyze_logs_eq_filterMap (t : Nat) (supp : String → Bool)
    (logs : List LogRecord) :
    analyze_logs t supp logs =
      (groupByUrl logs).filterMap (fun g => alertFor t supp g.1 g.2) := by
  suffices h : ∀ (gs : List (String × List LogRecord)) (acc : List Alert),
      gs.foldl (fun alerts g => alerts ++ (alertFor t supp g.1 g.2).toList) acc =
        acc ++ gs.filterMap (fun g => alertFor t supp g.1 g.2) by
    simpa [analyze_logs] using h (groupByUrl logs) []
  intro gs
  induction gs with
  | nil => intro acc; simp
  | cons g gs ih =>
    intro acc
    rw [List.foldl_cons, ih]
    cases halert : alertFor t supp g.1 g.2 <;> simp [halert]

/-- An emitted alert carries the url of its group. -/
theorem alertFor_url (t : Nat) (supp : String → Bool) (url : String)
    (group : List LogRecord) (a : Alert)
    (h : alertFor t supp url group = some a) : a.url = url := by
  simp only [alertFor] at h
  split at h
  · split at h
    · cases h
    · cases h
      rfl
  · cases h

/-- An emitted alert carries as consecutive_failures exactly the trailing
DOWN count of its sorted group. -/
theorem alertFor_cf (t : Nat) (supp : String → Bool) (url : String)
    (group : List LogRecord) (a : Alert)
    (h : alertFor t supp url group = some a) :
    a.consecutive_failures = countDownRun (List.insertionSort tsLe group).reverse := by
  simp only [alertFor] at h
  split at h
  · split at h
    · cases h
    · cases h
      rfl
  · cases h

/-- For a nonempty group, an alert is emitted exactly when the trailing
failure count reaches the threshold and the url is not suppressed. -/
theorem alertFor_isSome (t : Nat) (supp : String → Bool) (url : String)
    (group : List LogRecord) (hne : group ≠ []) :
    (alertFor t supp url group).isSome =
      decide (t ≤ countDownRun (List.insertionSort tsLe group).reverse
        ∧ supp url = false) := by
  unfold alertFor
  have hsne : List.insertionSort tsLe group ≠ [] := by
    intro hc
    apply hne
    have hl := List.length_insertionSort tsLe group
    rw [hc] at hl
    exact List.eq_nil_of_length_eq_zero hl.symm
  by_cases hcond : t ≤ countDownRun (List.insertionSort tsLe group).reverse
      ∧ supp url = false
  · rw [if_pos hcond]
    cases hs : List.insertionSort tsLe group with
    | nil => exact absurd hs hsne
    | cons first rest =>
      rw [hs] at hcond
      simp only [List.reverse_cons] at hcond
      simp [hcond]
  · simp [hcond]

/-- With distinct keys, counting entries that can only match one key reduces
to testing the entry found under that key. -/
theorem countP_unique_key (u : String) (q : (String × List LogRecord) → Bool)
    (hq : ∀ g, q g = true → g.1 = u) :
    ∀ gs : List (String × List LogRecord), (keysOf gs).Nodup →
      gs.countP q = (match gs.find? (fun p => p.1 == u) with
                     | some g => if q g then 1 else 0
                     | none => 0) := by
  intro gs
  induction gs with
  | nil => intro _; rfl
  | cons g gs ih =>
    intro hnd
    have hnd2 : (keysOf gs).Nodup := (List.nodup_cons.mp hnd).2
    have hnotin : g.1 ∉ keysOf gs := (List.nodup_cons.mp hnd).1
    have hzero : g.1 = u → gs.countP q = 0 := by
      intro hkey
      rw [List.countP_eq_zero]
      intro g2 hg2 hq2
      have := hq g2 hq2
      exact hnotin (hkey ▸ this ▸ List.mem_map_of_mem Prod.fst hg2)
    rw [List.countP_cons]
    by_cases hqg : q g = true
    · have hkey : g.1 = u := hq g hqg
      have hbeq : (g.1 == u) = true := by simp [hkey]
      simp only [List.find?, hbeq, hzero hkey, hqg]
      simp
    · by_cases hk : g.1 = u
      · have hbeq : (g.1 == u) = true := by simp [hk]
        simp only [List.find?, hbeq, hzero hk]
        simp [hqg]
      · have hbeq : (g.1 == u) = false := by simp [hk]
        simp only [List.find?, hbeq, ih hnd2]
        simp [hqg]

/-- The head of a timestamp-sorted list has minimal timestamp. -/
theorem sorted_head_min (x : LogRecord) (xs : List LogRecord)
    (h : List.Sorted tsLe (x :: xs)) :
    ∀ r ∈ x :: xs, x.timestamp ≤ r.timestamp := by
  intro r hr
  rcases List.mem_cons.mp hr with rfl | hr2
  · exact Nat.le_refl _
  · exact (List.sorted_cons.mp h).1 r hr2

/-- The last element of a timestamp-sorted list has maximal timestamp. -/
theorem sorted_getLast_max :
    ∀ (l : List LogRecord) (hne : l ≠ []), List.Sorted tsLe l →
      ∀ r ∈ l, r.timestamp ≤ (l.getLast hne).timestamp := by
  intro l
  induction l with
  | nil => intro hne; exact absurd rfl hne
  | cons x xs ih =>
    intro hne hs r hr
    cases xs with
    | nil =>
      have hr2 : r = x := by simpa using hr
      subst hr2
      simp
    | cons y ys =>
      have hyne : y :: ys ≠ [] := by simp
      have hgl : (x :: y :: ys).getLast hne = (y :: ys).getLast hyne :=
        List.getLast_cons hyne
      rcases List.mem_cons.mp hr with rfl | hr2
      · have hmem := List.getLast_mem hyne
        have hrel := (List.sorted_cons.mp hs).1 _ hmem
        rw [hgl]
        exact hrel
      · have := ih hyne (List.sorted_cons.mp hs).2 r hr2
        rw [hgl]
        exact this

/-- The send loop never writes a cooldown. -/
theorem sendLoop_no_setCooldown (outcome : Nat → Bool) :
    ∀ (alerts : List Alert) (i : Nat) (u : String),
      Ev.setCooldown u ∉ sendLoop outcome i alerts := by
  intro alerts
  induction alerts with
  | nil => intro i u h; cases h
  | cons a rest ih =>
    intro i u h
    cases ho : outcome i <;> simp [sendLoop, ho] at h <;> exact ih (i + 1) u h

/-- If the per-target loop accepts, every entry is an object carrying the
three required keys with an https url of nonempty netloc. -/
theorem validateUrls_sound :
    ∀ xs : List JVal, validateUrls xs = .ok true →
      ∀ tv ∈ xs, (∃ tk, tv = JVal.jobj tk)
        ∧ (objGet tv "name").isSome ∧ (objGet tv "expected_status").isSome
        ∧ ∃ s, objGet tv "url" = some (.jstr s)
            ∧ (urlparse s).1 = "https" ∧ (urlparse s).2 ≠ "" := by
  intro xs
  induction xs with
  | nil => intro _ tv htv; cases htv
  | cons uc rest ih =>
    intro h tv htv
    cases uc with
    | jnull => simp [validateUrls, pyContains, bind, Except.bind] at h
    | jint n => simp [validateUrls, pyContains, bind, Except.bind] at h
    | jfloat => simp [validateUrls, pyContains, bind, Except.bind] at h
    | jstr s =>
      cases hb1 : decide ((s.splitOn "name").length > 1) <;>
        cases hb2 : decide ((s.splitOn "url").length > 1) <;>
        cases hb3 : decide ((s.splitOn "expected_status").length > 1) <;>
        simp [validateUrls, pyContains, bind, Except.bind, hb1, hb2, hb3,
          jIndex, pure, Except.pure] at h
    | jarr ys =>
      cases hb1 : ys.any (fun x => match x with | JVal.jstr s => s == "name" | _ => false) <;>
        cases hb2 : ys.any (fun x => match x with | JVal.jstr s => s == "url" | _ => false) <;>
        cases hb3 : ys.any (fun x =>
          match x with | JVal.jstr s => s == "expected_status" | _ => false) <;>
        simp [validateUrls, pyContains, bind, Except.bind, hb1, hb2, hb3,
          jIndex, pure, Except.pure] at h
    | jobj kvs =>
      cases hname : kvs.any (fun p => p.1 == "name") with
      | false =>
        simp [validateUrls, pyContains, bind, Except.bind, hname, pure, Except.pure] at h
      | true =>
      cases hurl : kvs.any (fun p => p.1 == "url") with
      | false =>
        simp [validateUrls, pyContains, bind, Except.bind, hname, hurl,
          pure, Except.pure] at h
      | true =>
      cases hexp : kvs.any (fun p => p.1 == "expected_status") with
      | false =>
        simp [validateUrls, pyContains, bind, Except.bind, hname, hurl, hexp,
          pure, Except.pure] at h
      | true =>
      obtain ⟨pv, hpv⟩ : ∃ pv, kvs.find? (fun p => p.1 == "url") = some pv := by
        apply Option.isSome_iff_exists.mp
        rw [List.find?_isSome]
        simpa [List.any_eq_true] using hurl
      cases hval : validate_url pv.2 with
      | false =>
        simp [validateUrls, pyContains, bind, Except.bind, hname, hurl, hexp,
          jIndex, objGet, hpv, hval, pure, Except.pure] at h
      | true =>
      have hrest : validateUrls rest = .ok true := by
        simpa [validateUrls, pyContains, bind, Except.bind, hname, hurl, hexp,
          jIndex, objGet, hpv, hval] using h
      rcases List.mem_cons.mp htv with rfl | htv2
      · refine ⟨⟨kvs, rfl⟩, ?_, ?_, ?_⟩
        · rw [objGet, Option.isSome_map', List.find?_isSome]
          simpa [List.any_eq_true] using hname
        · rw [objGet, Option.isSome_map', List.find?_isSome]
          simpa [List.any_eq_true] using hexp
        · cases hv2 : pv.2 with
          | jstr s =>
            rw [hv2] at hval
            rw [validate_url] at hval
            have hprops := of_decide_eq_true hval
            exact ⟨s, by rw [objGet, hpv, Option.map_some', hv2],
              hprops.2, hprops.1.2⟩
          | jnull => rw [hv2] at hval; simp [validate_url] at hval
          | jint n => rw [hv2] at hval; simp [validate_url] at hval
          | jfloat => rw [hv2] at hval; simp [validate_url] at hval
          | jarr ys => rw [hv2] at hval; simp [validate_url] at hval
          | jobj kvs2 => rw [hv2] at hval; simp [validate_url] at hval
      · exact ih hrest tv htv2

/-- Targets valid per the spec pass the per-target loop. -/
theorem validateUrls_complete :
    ∀ xs : List JVal, xs.all specValidTarget = true → validateUrls xs = .ok true := by
  intro xs
  induction xs with
  | nil => intro _; rfl
  | cons tv rest ih =>
    intro h
    rw [List.all_cons, Bool.and_eq_true] at h
    obtain ⟨hsv, hrest⟩ := h
    cases tv with
    | jnull => simp [specValidTarget] at hsv
    | jint n => simp [specValidTarget] at hsv
    | jfloat => simp [specValidTarget] at hsv
    | jstr s => simp [specValidTarget] at hsv
    | jarr ys => simp [specValidTarget] at hsv
    | jobj tk =>
      simp only [specValidTarget, Bool.and_eq_true] at hsv
      obtain ⟨⟨hnm, hu⟩, hexp⟩ := hsv
      obtain ⟨s, hus, hprops⟩ : ∃ s, objGet (JVal.jobj tk) "url" = some (.jstr s)
          ∧ ((urlparse s).1 = "https" ∧ (urlparse s).2 ≠ "") := by
        cases hugot : objGet (JVal.jobj tk) "url" with
        | none => rw [hugot] at hu; cases hu
        | some uv =>
          rw [hugot] at hu
          cases uv with
          | jstr s => exact ⟨s, rfl, of_decide_eq_true hu⟩
          | jnull => cases hu
          | jint n => cases hu
          | jfloat => cases hu
          | jarr ys => cases hu
          | jobj k2 => cases hu
      have hnameAny : tk.any (fun p => p.1 == "name") = true := by
        simp only [objGet, Option.isSome_map', List.find?_isSome] at hnm
        rw [List.any_eq_true]
        exact hnm
      have hexpAny : tk.any (fun p => p.1 == "expected_status") = true := by
        simp only [objGet, Option.isSome_map', List.find?_isSome] at hexp
        rw [List.any_eq_true]
        exact hexp
      have hurlAny : tk.any (fun p => p.1 == "url") = true := by
        have h2 := hus
        simp only [objGet] at h2
        obtain ⟨pv, hpv, _⟩ := Option.map_eq_some'.mp h2
        rw [List.any_eq_true]
        exact List.find?_isSome.mp (hpv ▸ rfl)
      have hvu : validate_url (JVal.jstr s) = true := by
        rw [validate_url]
        refine decide_eq_true ⟨⟨?_, hprops.2⟩, hprops.1⟩
        rw [hprops.1]
        decide
      simp [validateUrls, pyContains, bind, Except.bind, hnameAny, hurlAny,
        hexpAny, jIndex, hus, hvu, ih hrest, pure, Except.pure]

/-- If validate_config accepts a configuration, then its max_retries entry is
an integer (of any sign), its target count respects max_urls, and every
target is an object with the required keys and an https url. -/
theorem validate_config_sound (c : JVal) (h : validate_config c = true) :
    ∀ mon, objGet c "monitoring" = some mon →
      (∃ n : Int, objGet mon "max_retries" = some (.jint n))
      ∧ (∀ xs : List JVal, objGet mon "urls" = some (.jarr xs) →
          (∀ sec, objGet c "security" = some sec →
            ∃ m : Int, objGet sec "max_urls" = some (.jint m)
              ∧ (xs.length : Int) ≤ m)
          ∧ (∀ tv ∈ xs, (∃ tk, tv = JVal.jobj tk)
              ∧ (objGet tv "name").isSome ∧ (objGet tv "expected_status").isSome
              ∧ ∃ s, objGet tv "url" = some (.jstr s)
                  ∧ (urlparse s).1 = "https" ∧ (urlparse s).2 ≠ "")) := by
  intro mon hmon
  have hcore : validate_config_core c = .ok true := by
    unfold validate_config at h
    cases hc : validate_config_core c with
    | ok b =>
      rw [hc] at h
      have hb : b = true := by simpa using h
      rw [hb]
    | error e =>
      rw [hc] at h
      simp at h
  clear h
  have hemptyGet : ∀ k : String, objGet (JVal.jobj []) k = none := fun _ => rfl
  cases c with
  | jnull => simp [objGet] at hmon
  | jint n => simp [objGet] at hmon
  | jfloat => simp [objGet] at hmon
  | jstr s => simp [objGet] at hmon
  | jarr ys => simp [objGet] at hmon
  | jobj ckvs =>
  cases mon with
  | jnull => simp [validate_config_core, jGet, bind, Except.bind, hmon] at hcore
  | jint n => simp [validate_config_core, jGet, bind, Except.bind, hmon] at hcore
  | jfloat => simp [validate_config_core, jGet, bind, Except.bind, hmon] at hcore
  | jstr s => simp [validate_config_core, jGet, bind, Except.bind, hmon] at hcore
  | jarr ys => simp [validate_config_core, jGet, bind, Except.bind, hmon] at hcore
  | jobj mkvs =>
  cases hn1 : isNumber ((objGet (JVal.jobj mkvs) "interval_minutes").getD JVal.jnull) with
  | false =>
    simp [validate_config_core, jGet, bind, Except.bind, hmon, hn1,
      pure, Except.pure] at hcore
  | true =>
  cases hn2 : isNumber ((objGet (JVal.jobj mkvs) "timeout_seconds").getD JVal.jnull) with
  | false =>
    simp [validate_config_core, jGet, bind, Except.bind, hmon, hn1, hn2,
      pure, Except.pure] at hcore
  | true =>
  cases hmr : objGet (JVal.jobj mkvs) "max_retries" with
  | none =>
    simp [validate_config_core, jGet, bind, Except.bind, hmon, hn1, hn2, hmr,
      isIntVal, pure, Except.pure] at hcore
  | some mrv =>
  cases mrv with
  | jnull =>
    simp [validate_config_core, jGet, bind, Except.bind, hmon, hn1, hn2, hmr,
      isIntVal, pure, Except.pure] at hcore
  | jfloat =>
    simp [validate_config_core, jGet, bind, Except.bind, hmon, hn1, hn2, hmr,
      isIntVal, pure, Except.pure] at hcore
  | jstr s =>
    simp [validate_config_core, jGet, bind, Except.bind, hmon, hn1, hn2, hmr,
      isIntVal, pure, Except.pure] at hcore
  | jarr ys =>
    simp [validate_config_core, jGet, bind, Except.bind, hmon, hn1, hn2, hmr,
      isIntVal, pure, Except.pure] at hcore
  | jobj okvs =>
    simp [validate_config_core, jGet, bind, Except.bind, hmon, hn1, hn2, hmr,
      isIntVal, pure, Except.pure] at hcore
  | jint nmr =>
  cases hn4 : isNumber ((objGet (JVal.jobj mkvs) "retry_delay_seconds").getD JVal.jnull) with
  | false =>
    simp [validate_config_core, jGet, bind, Except.bind, hmon, hn1, hn2, hmr,
      hn4, isIntVal, pure, Except.pure] at hcore
  | true =>
  cases hsec : objGet (JVal.jobj ckvs) "security" with
  | none =>
    simp [validate_config_core, jGet, bind, Except.bind, hmon, hsec, hemptyGet,
      hn1, hn2, hmr, hn4, isIntVal, pure, Except.pure] at hcore
  | some secv =>
  cases secv with
  | jnull =>
    simp [validate_config_core, jGet, bind, Except.bind, hmon, hsec,
      hn1, hn2, hmr, hn4, isIntVal, pure, Except.pure] at hcore
  | jint n2 =>
    simp [validate_config_core, jGet, bind, Except.bind, hmon, hsec,
      hn1, hn2, hmr, hn4, isIntVal, pure, Except.pure] at hcore
  | jfloat =>
    simp [validate_config_core, jGet, bind, Except.bind, hmon, hsec,
      hn1, hn2, hmr, hn4, isIntVal, pure, Except.pure] at hcore
  | jstr s2 =>
    simp [validate_config_core, jGet, bind, Except.bind, hmon, hsec,
      hn1, hn2, hmr, hn4, isIntVal, pure, Except.pure] at hcore
  | jarr ys2 =>
    simp [validate_config_core, jGet, bind, Except.bind, hmon, hsec,
      hn1, hn2, hmr, hn4, isIntVal, pure, Except.pure] at hcore
  | jobj skvs =>
  cases hmu : objGet (JVal.jobj skvs) "max_urls" with
  | none =>
    simp [validate_config_core, jGet, bind, Except.bind, hmon, hsec, hmu,
      hn1, hn2, hmr, hn4, isIntVal, pure, Except.pure] at hcore
  | some muv =>
  cases muv with
  | jnull =>
    simp [validate_config_core, jGet, bind, Except.bind, hmon, hsec, hmu,
      hn1, hn2, hmr, hn4, isIntVal, pure, Except.pure] at hcore
  | jfloat =>
    simp [validate_config_core, jGet, bind, Except.bind, hmon, hsec, hmu,
      hn1, hn2, hmr, hn4, isIntVal, pure, Except.pure] at hcore
  | jstr s3 =>
    simp [validate_config_core, jGet, bind, Except.bind, hmon, hsec, hmu,
      hn1, hn2, hmr, hn4, isIntVal, pure, Except.pure] at hcore
  | jarr ys3 =>
    simp [validate_config_core, jGet, bind, Except.bind, hmon, hsec, hmu,
      hn1, hn2, hmr, hn4, isIntVal, pure, Except.pure] at hcore
  | jobj okvs2 =>
    simp [validate_config_core, jGet, bind, Except.bind, hmon, hsec, hmu,
      hn1, hn2, hmr, hn4, isIntVal, pure, Except.pure] at hcore
  | jint m =>
  cases hs2 : isListVal ((objGet (JVal.jobj skvs) "allowed_schemes").getD JVal.jnull) with
  | false =>
    simp [validate_config_core, jGet, bind, Except.bind, hmon, hsec, hmu, hs2,
      hn1, hn2, hmr, hn4, isIntVal, pure, Except.pure] at hcore
  | true =>
  cases hs3 : isNumber ((objGet (JVal.jobj skvs) "max_timeout_seconds").getD JVal.jnull) with
  | false =>
    simp [validate_config_core, jGet, bind, Except.bind, hmon, hsec, hmu, hs2, hs3,
      hn1, hn2, hmr, hn4, isIntVal, pure, Except.pure] at hcore
  | true =>
  cases hs4 : isNumber ((objGet (JVal.jobj skvs) "max_interval_minutes").getD JVal.jnull) with
  | false =>
    simp [validate_config_core, jGet, bind, Except.bind, hmon, hsec, hmu, hs2, hs3, hs4,
      hn1, hn2, hmr, hn4, isIntVal, pure, Except.pure] at hcore
  | true =>
  refine ⟨⟨nmr, rfl⟩, ?_⟩
  intro xs hurls
  have hc2 := hcore
  by_cases hlen : (xs.length : Int) > m
  · simp [validate_config_core, jGet, bind, Except.bind, hmon, hsec, hmu, hurls,
      hn1, hn2, hmr, hn4, hs2, hs3, hs4, isIntVal, jIndex, hlen,
      pure, Except.pure] at hc2
  · simp only [validate_config_core, jGet, bind, Except.bind, hmon, hsec, hmu, hurls,
      hn1, hn2, hmr, hn4, hs2, hs3, hs4, isIntVal, jIndex, Option.getD_some,
      Bool.not_true, Bool.false_eq_true, if_false, ite_false, hlen,
      pure, Except.pure] at hc2
    refine ⟨?_, validateUrls_sound xs hc2⟩
    intro sec hsec2
    have hseq : sec = JVal.jobj skvs := (Option.some.inj hsec2).symm
    subst hseq
    exact ⟨m, hmu, by omega⟩

/-- A configuration valid per the spec is accepted by validate_config. -/
theorem validate_config_complete (c : JVal) (h : specValidConfig c = true) :
    validate_config c = true := by
  cases hm : objGet c "monitoring" with
  | none => simp only [specValidConfig, hm] at h; cases h
  | some mon =>
  cases hs : objGet c "security" with
  | none => simp only [specValidConfig, hm, hs] at h; cases h
  | some sec =>
  simp only [specValidConfig, hm, hs, Bool.and_eq_true] at h
  obtain ⟨⟨⟨⟨⟨⟨⟨h1, h2⟩, h3⟩, h4⟩, h5⟩, h6⟩, h7⟩, h8⟩ := h
  obtain ⟨nmr, hmr⟩ : ∃ nmr : Int, objGet mon "max_retries" = some (.jint nmr) := by
    cases hmrv : objGet mon "max_retries" with
    | none => rw [hmrv] at h3; cases h3
    | some v =>
      rw [hmrv] at h3
      cases v with
      | jint n => exact ⟨n, rfl⟩
      | jnull => cases h3
      | jfloat => cases h3
      | jstr s2 => cases h3
      | jarr ys => cases h3
      | jobj k2 => cases h3
  obtain ⟨l, hals⟩ : ∃ l, objGet sec "allowed_schemes" = some (.jarr l) := by
    cases halv : objGet sec "allowed_schemes" with
    | none => rw [halv] at h5; cases h5
    | some v =>
      rw [halv] at h5
      cases v with
      | jarr ys => exact ⟨ys, rfl⟩
      | jnull => cases h5
      | jint n => cases h5
      | jfloat => cases h5
      | jstr s2 => cases h5
      | jobj k2 => cases h5
  obtain ⟨m, xs, hmu, hurls, hlen, hall⟩ : ∃ (m : Int) (xs : List JVal),
      objGet sec "max_urls" = some (.jint m)
      ∧ objGet mon "urls" = some (.jarr xs)
      ∧ (xs.length : Int) ≤ m ∧ xs.all specValidTarget = true := by
    cases hmuv : objGet sec "max_urls" with
    | none => rw [hmuv] at h8; cases h8
    | some v =>
      rw [hmuv] at h8
      cases v with
      | jint m =>
        cases hurlv : objGet mon "urls" with
        | none => rw [hurlv] at h8; cases h8
        | some w =>
          rw [hurlv] at h8
          cases w with
          | jarr xs =>
            rw [Bool.and_eq_true] at h8
            exact ⟨m, xs, rfl, rfl, of_decide_eq_true h8.1, h8.2⟩
          | jnull => cases h8
          | jint n2 => cases h8
          | jfloat => cases h8
          | jstr s2 => cases h8
          | jobj k2 => cases h8
      | jnull => cases h8
      | jfloat => cases h8
      | jstr s2 => cases h8
      | jarr ys => cases h8
      | jobj k2 => cases h8
  cases c with
  | jnull => simp [objGet] at hm
  | jint n => simp [objGet] at hm
  | jfloat => simp [objGet] at hm
  | jstr s2 => simp [objGet] at hm
  | jarr ys => simp [objGet] at hm
  | jobj ckvs =>
  cases mon with
  | jnull => simp [objGet, isNumber] at h1
  | jint n => simp [objGet, isNumber] at h1
  | jfloat => simp [objGet, isNumber] at h1
  | jstr s2 => simp [objGet, isNumber] at h1
  | jarr ys => simp [objGet, isNumber] at h1
  | jobj mkvs =>
  cases sec with
  | jnull => simp [objGet, isNumber] at h6
  | jint n => simp [objGet, isNumber] at h6
  | jfloat => simp [objGet, isNumber] at h6
  | jstr s2 => simp [objGet, isNumber] at h6
  | jarr ys => simp [objGet, isNumber] at h6
  | jobj skvs =>
  have hlen2 : ¬ ((xs.length : Int) > m) := by omega
  have hcore : validate_config_core (JVal.jobj ckvs) = .ok true := by
    simp [validate_config_core, jGet, bind, Except.bind, hm, hs, hmr, hals, hmu,
      hurls, h1, h2, h4, h6, h7, jIndex, isIntVal, isListVal, hlen2,
      validateUrls_complete xs hall, pure, Except.pure]
  simp [validate_config, hcore]

/-! Claim theorems. -/

/-- C2: for every log list and every url occurring in it, the analyzer
groups the records of that url, sorts them by timestamp ascending, counts
trailing consecutive DOWN records, and emits exactly one candidate for the
url iff that count reaches the threshold and the url is not suppressed;
moreover every candidate emitted for the url carries that trailing count in
its consecutive_failures field. -/
theorem analyzer_emits_one_candidate_iff (t : Nat) (supp : String → Bool)
    (logs : List LogRecord) (u : String)
    (h : u ∈ logs.map (fun r => r.url)) :
    ((analyze_logs t supp logs).countP (fun a => a.url == u) =
      if t ≤ trailingFailures u logs ∧ supp u = false then 1 else 0)
    ∧ (∀ a ∈ analyze_logs t supp logs, a.url = u →
        a.consecutive_failures = trailingFailures u logs) := by
  have hfield : ∀ a ∈ analyze_logs t supp logs, a.url = u →
      a.consecutive_failures = trailingFailures u logs := by
    intro a ha hu
    rw [analyze_logs_eq_filterMap] at ha
    obtain ⟨g, hgmem, halert⟩ := List.mem_filterMap.mp ha
    have hg1 : g.1 = u := (alertFor_url _ _ _ _ _ halert).symm.trans hu
    have hfind : (groupByUrl logs).find? (fun p => p.1 == g.1) = some g :=
      find?_of_mem_nodup (groupByUrl logs) (groupByUrl_keys_nodup logs) g hgmem
    have hlg := lookupGroup_groupByUrl logs g.1
    rw [lookupGroup, hfind] at hlg
    by_cases hany2 : logs.any (fun r => r.url == g.1)
    · rw [if_pos hany2] at hlg
      simp only [Option.map_some'] at hlg
      have hg2 : g.2 = logs.filter (fun r => r.url == g.1) := Option.some.inj hlg
      have hcf := alertFor_cf t supp g.1 g.2 a halert
      rw [hcf, hg2, hg1]
      rfl
    · rw [if_neg hany2] at hlg
      simp at hlg
  refine ⟨?_, hfield⟩
  have hany : logs.any (fun r => r.url == u) = true := by
    rw [List.any_eq_true]
    obtain ⟨r, hr, hru⟩ := List.mem_map.mp h
    exact ⟨r, hr, by simp [hru]⟩
  have hfilne : logs.filter (fun r => r.url == u) ≠ [] := by
    obtain ⟨r, hr, hru⟩ := List.mem_map.mp h
    intro hc
    rw [List.filter_eq_nil_iff] at hc
    exact hc r hr (by simp [hru])
  have hq : ∀ g : String × List LogRecord,
      ((((fun g : String × List LogRecord => alertFor t supp g.1 g.2) g).map
        (fun a : Alert => a.url == u)).getD false) = true → g.1 = u := by
    intro g hg
    cases halert : alertFor t supp g.1 g.2 with
    | none => rw [show ((fun g : String × List LogRecord => alertFor t supp g.1 g.2) g)
        = alertFor t supp g.1 g.2 from rfl, halert] at hg; simp at hg
    | some a =>
      rw [show ((fun g : String × List LogRecord => alertFor t supp g.1 g.2) g)
        = alertFor t supp g.1 g.2 from rfl, halert] at hg
      simp only [Option.map_some', Option.getD_some, beq_iff_eq] at hg
      rw [alertFor_url t supp g.1 g.2 a halert] at hg
      exact hg
  rw [analyze_logs_eq_filterMap t supp logs,
    List.countP_filterMap (fun a : Alert => a.url == u)
      (fun g : String × List LogRecord => alertFor t supp g.1 g.2) (groupByUrl logs),
    countP_unique_key u
      (fun g : String × List LogRecord =>
        (((fun g : String × List LogRecord => alertFor t supp g.1 g.2) g).map
          (fun a : Alert => a.url == u)).getD false)
      hq (groupByUrl logs) (groupByUrl_keys_nodup logs)]
  have hlg := lookupGroup_groupByUrl logs u
  rw [hany] at hlg
  simp only [if_pos] at hlg
  unfold lookupGroup at hlg
  obtain ⟨g, hgfind, hgsnd⟩ := Option.map_eq_some'.mp hlg
  have hg1 : g.1 = u := by
    have := List.find?_some hgfind
    simpa using this
  rw [hgfind]
  have hg2ne : g.2 ≠ [] := by rw [hgsnd]; exact hfilne
  have hmain : ((((fun g : String × List LogRecord => alertFor t supp g.1 g.2) g).map
      (fun a : Alert => a.url == u)).getD false) =
      decide (t ≤ trailingFailures u logs ∧ supp u = false) := by
    have hs := alertFor_isSome t supp g.1 g.2 hg2ne
    cases halert : alertFor t supp g.1 g.2 with
    | none =>
      rw [halert] at hs
      simp only [Option.isSome_none] at hs
      rw [hgsnd, hg1] at hs
      show ((Option.map (fun a : Alert => a.url == u) (alertFor t supp g.1 g.2)).getD false) = _
      rw [halert]
      unfold trailingFailures
      simp [hs.symm]
    | some a =>
      rw [halert] at hs
      simp only [Option.isSome_some] at hs
      rw [hgsnd, hg1] at hs
      show ((Option.map (fun a : Alert => a.url == u) (alertFor t supp g.1 g.2)).getD false) = _
      rw [halert]
      have haurl : a.url = u := (alertFor_url t supp g.1 g.2 a halert).trans hg1
      unfold trailingFailures
      simp [haurl, hs.symm]
  show (if (Option.map (fun a : Alert => a.url == u)
      ((fun g : String × List LogRecord => alertFor t supp g.1 g.2) g)).getD false = true
    then 1 else 0) =
    if t ≤ trailingFailures u logs ∧ supp u = false then 1 else 0
  rw [hmain]
  by_cases hcond : t ≤ trailingFailures u logs ∧ supp u = false <;> simp [hcond]

/-- Witness for C2: for the history UP, DOWN, DOWN, DOWN at threshold 3 the
analyzer emits exactly one candidate for the url and that candidate carries
consecutive_failures = 3; for DOWN, DOWN, UP it emits none. -/
theorem analyzer_emits_one_candidate_iff_witness :
    (analyze_logs 3 noSupp exLogsA).countP (fun a => a.url == exUrl) = 1
    ∧ (analyze_logs 3 noSupp exLogsB).countP (fun a => a.url == exUrl) = 0
    ∧ (∀ a ∈ analyze_logs 3 noSupp exLogsA, a.url = exUrl →
        a.consecutive_failures = 3) := by
  refine ⟨?_, ?_, ?_⟩
  · have h := (analyzer_emits_one_candidate_iff 3 noSupp exLogsA exUrl (by decide)).1
    rw [h]
    decide
  · have h := (analyzer_emits_one_candidate_iff 3 noSupp exLogsB exUrl (by decide)).1
    rw [h]
    decide
  · intro a ha hu
    have h := (analyzer_emits_one_candidate_iff 3 noSupp exLogsA exUrl (by decide)).2
      a ha hu
    rw [h]
    decide

/-- C3: if every attempt fails with a transport-level failure, Prober.check
performs exactly maxRetries attempts, sleeps retryDelaySeconds after each
failed attempt except the last (total (maxRetries-1) * retryDelaySeconds),
and returns status DOWN with the last captured failure message. -/
theorem prober_all_transport_failures (uc : UrlConfig) (n d now : Nat)
    (oracle : Nat → Attempt) (msgs : Nat → String)
    (hn : 1 ≤ n) (hfail : ∀ i, i < n → oracle i = Attempt.reqExn (msgs i)) :
    check_url uc (Int.ofNat n) d oracle now =
      .ok ⟨{ initResult uc now with error := some (msgs (n - 1)) }, n, (n - 1) * d⟩
    ∧ ({ initResult uc now with error := some (msgs (n - 1)) } : CheckResult).status
        = "DOWN" := by
  constructor
  · have h := check_url_go_all_fail uc.expected_status d oracle msgs n 0
      (initResult uc now) 0 0 hn (fun k hk1 hk2 => hfail k (by omega))
    simpa [check_url, Int.toNat_ofNat] using h
  · rfl

/-- Witness for C3: two timed-out attempts at delay 5 give two requests, one
sleep of 5, status DOWN and the second timeout message. -/
theorem prober_all_transport_failures_witness :
    check_url ucGood (Int.ofNat 2) 5 (timeoutOracle msgsW) 11 =
      .ok ⟨{ initResult ucGood 11 with error := some (msgsW 1) }, 2, 5⟩ :=
  (prober_all_transport_failures ucGood 2 5 11 (timeoutOracle msgsW) msgsW
    (by omega) (fun i _ => rfl)).1

/-- C9: with a non-positive max_retries the probe loop never runs: no HTTP
request is issued and the initial record (status DOWN, no error, no status
code, no response time) is returned unchanged. -/
theorem prober_nonpositive_retries_silent_down (uc : UrlConfig) (mr : Int)
    (d now : Nat) (oracle : Nat → Attempt) (h : mr ≤ 0) :
    check_url uc mr d oracle now = .ok ⟨initResult uc now, 0, 0⟩
    ∧ (initResult uc now).status = "DOWN"
    ∧ (initResult uc now).error = none
    ∧ (initResult uc now).status_code = none
    ∧ (initResult uc now).response_time = none := by
  refine ⟨?_, rfl, rfl, rfl, rfl⟩
  rw [check_url, Int.toNat_of_nonpos h]
  rfl

/-- Witness for C9 at max_retries = -1. -/
theorem prober_nonpositive_retries_silent_down_witness :
    check_url ucGood (-1) 2 (timeoutOracle msgsW) 11 =
      .ok ⟨initResult ucGood 11, 0, 0⟩ :=
  (prober_nonpositive_retries_silent_down ucGood (-1) 2 11 (timeoutOracle msgsW)
    (by omega)).1

/-- C6: one monitoring cycle yields exactly one result per configured target
in configured order; a target whose check raises is reported with status
ERROR carrying the exception message, and the remaining targets are still
processed (every index keeps its own result). -/
theorem monitor_cycle_per_target (check : UrlConfig → Except String CheckResult)
    (now : Nat) (urls : List UrlConfig) :
    (monitor_urls check now urls).length = urls.length
    ∧ (∀ i (h1 : i < urls.length) (r : CheckResult),
         check (urls.get ⟨i, h1⟩) = .ok r →
         (monitor_urls check now urls)[i]? = some r)
    ∧ (∀ i (h1 : i < urls.length) (e : String),
         check (urls.get ⟨i, h1⟩) = .error e →
         (monitor_urls check now urls)[i]? = some (errorResult (urls.get ⟨i, h1⟩) now e)
         ∧ (errorResult (urls.get ⟨i, h1⟩) now e).status = "ERROR"
         ∧ (errorResult (urls.get ⟨i, h1⟩) now e).error = some e) := by
  refine ⟨by rw [monitor_urls_eq_map]; simp, ?_, ?_⟩
  · intro i h1 r hr
    rw [monitor_urls_get check now urls i h1, applyCheck, hr]
  · intro i h1 e he
    refine ⟨?_, rfl, rfl⟩
    rw [monitor_urls_get check now urls i h1, applyCheck, he]

/-- Witness for C6: a cycle over a good and a raising target yields two
results, the second being the ERROR record. -/
theorem monitor_cycle_per_target_witness :
    (monitor_urls checkW 7 [ucGood, ucBad]).length = 2
    ∧ (monitor_urls checkW 7 [ucGood, ucBad])[1]? =
        some (errorResult ucBad 7 "boom") := by
  refine ⟨(monitor_cycle_per_target checkW 7 [ucGood, ucBad]).1, ?_⟩
  exact ((monitor_cycle_per_target checkW 7 [ucGood, ucBad]).2.2 1 (by decide)
    "boom" rfl).1

/-- C7: with a configured sink, the dispatcher posts exactly one notification
per candidate, in input order, regardless of which sends fail; a failed send
never suppresses later sends and no candidate is posted twice. -/
theorem dispatcher_one_send_per_candidate (outcome : Nat → Bool)
    (alerts : List Alert) :
    sendsOf (send_alerts true outcome alerts) =
      alerts.map (fun a => (a.url, alertMessage a)) := by
  simpa [send_alerts] using sendsOf_sendLoop outcome alerts 0

/-- C1 (amended): every cooldown write of one invocation happens during
analysis, indexed before every webhook send; exactly one cooldown write is
made per emitted candidate, whatever the sink configuration and the send
outcomes are. -/
theorem cooldown_recorded_during_analysis (t : Nat) (supp : String → Bool)
    (wc : Bool) (outcome : Nat → Bool) (logs : List LogRecord) :
    (mainTrace t supp wc outcome logs).filter evIsSetCooldown =
      (analyze_logs t supp logs).map (fun a => Ev.setCooldown a.url)
    ∧ (∀ (i j : Nat) (u v : String) (p : Embed),
        (mainTrace t supp wc outcome logs)[i]? = some (Ev.setCooldown u) →
        (mainTrace t supp wc outcome logs)[j]? = some (Ev.send v p) → i < j) := by
  constructor
  · simp only [mainTrace, List.filter_append]
    have h1 : ((analyze_logs t supp logs).map (fun a => Ev.setCooldown a.url)).filter
        evIsSetCooldown = (analyze_logs t supp logs).map (fun a => Ev.setCooldown a.url) := by
      rw [List.filter_map]
      have : (evIsSetCooldown ∘ fun a : Alert => Ev.setCooldown a.url) =
          fun _ : Alert => true := by
        funext a
        rfl
      rw [this, List.filter_true]
    have h2 : (send_alerts wc outcome (analyze_logs t supp logs)).filter
        evIsSetCooldown = [] := by
      rw [List.filter_eq_nil_iff]
      intro e he
      cases wc with
      | false => simp [send_alerts] at he
      | true =>
        simp only [send_alerts, if_pos] at he
        cases e with
        | setCooldown u =>
          exact absurd he (sendLoop_no_setCooldown outcome (analyze_logs t supp logs) 0 u)
        | send u p => simp [evIsSetCooldown]
        | sleepPause => simp [evIsSetCooldown]
    rw [h1, h2, List.append_nil]
  · intro i j u v p hi hj
    have hlen : ∀ (k : Nat), (mainTrace t supp wc outcome logs)[k]? =
        (((analyze_logs t supp logs).map (fun a => Ev.setCooldown a.url)) ++
          send_alerts wc outcome (analyze_logs t supp logs))[k]? := by
      intro k
      rfl
    have hi2 := (hlen i).symm.trans hi
    have hj2 := (hlen j).symm.trans hj
    set A := (analyze_logs t supp logs).map (fun a => Ev.setCooldown a.url) with hA
    set B := send_alerts wc outcome (analyze_logs t supp logs) with hB
    have hiA : i < A.length := by
      by_contra hc
      push_neg at hc
      rw [List.getElem?_append_right hc] at hi2
      have hmem : Ev.setCooldown u ∈ B := by
        have := List.getElem?_eq_some_iff.mp hi2
        obtain ⟨hlt, hval⟩ := this
        exact hval ▸ List.getElem_mem hlt
      rw [hB] at hmem
      cases wc with
      | false => simp [send_alerts] at hmem
      | true =>
        simp only [send_alerts, if_pos] at hmem
        exact sendLoop_no_setCooldown outcome (analyze_logs t supp logs) 0 u hmem
    have hjA : A.length ≤ j := by
      by_contra hc
      push_neg at hc
      rw [List.getElem?_append_left hc] at hj2
      rw [hA] at hj2
      rw [List.getElem?_map] at hj2
      cases hk : (analyze_logs t supp logs)[j]? with
      | none => rw [hk] at hj2; cases hj2
      | some a => rw [hk] at hj2; cases hj2
    omega

/-- Witness for C1 amended: with a configured sink on the UP, DOWN, DOWN,
DOWN history, the cooldown write sits at index 0, before the send at 1. -/
theorem cooldown_recorded_during_analysis_witness :
    (mainTrace 3 noSupp true (fun _ => true) exLogsA).filter evIsSetCooldown =
      (analyze_logs 3 noSupp exLogsA).map (fun a => Ev.setCooldown a.url)
    ∧ 0 < 1 := by
  refine ⟨(cooldown_recorded_during_analysis 3 noSupp true (fun _ => true) exLogsA).1, ?_⟩
  exact (cooldown_recorded_during_analysis 3 noSupp true (fun _ => true) exLogsA).2
    0 1 exUrl exUrl (alertMessage exAlertA) (by decide) (by decide)

/-- Counterexample to C1 as stated: on the UP, DOWN, DOWN, DOWN history with
no sink configured, the invocation records the cooldown for the url although
no notification is ever sent. -/
theorem cooldown_written_with_no_sink_and_no_send :
    Ev.setCooldown exUrl ∈ mainTrace 3 noSupp false (fun _ => true) exLogsA
    ∧ sendsOf (mainTrace 3 noSupp false (fun _ => true) exLogsA) = [] := by
  decide

/-- C10: every emitted candidate takes its name from a minimal-timestamp
record of the url group, and its last_status and last_check from one
maximal-timestamp record of that group. -/
theorem candidate_name_oldest_status_newest (t : Nat) (supp : String → Bool)
    (logs : List LogRecord) (a : Alert)
    (ha : a ∈ analyze_logs t supp logs) :
    ∃ g1 g2, g1 ∈ logs.filter (fun r => r.url == a.url)
      ∧ g2 ∈ logs.filter (fun r => r.url == a.url)
      ∧ a.name = g1.name ∧ a.last_status = g2.status ∧ a.last_check = g2.timestamp
      ∧ (∀ r ∈ logs.filter (fun r => r.url == a.url),
          g1.timestamp ≤ r.timestamp ∧ r.timestamp ≤ g2.timestamp) := by
  rw [analyze_logs_eq_filterMap] at ha
  obtain ⟨g, hgmem, halert⟩ := List.mem_filterMap.mp ha
  have hgurl : a.url = g.1 := alertFor_url _ _ _ _ _ halert
  have hfind : (groupByUrl logs).find? (fun p => p.1 == g.1) = some g :=
    find?_of_mem_nodup (groupByUrl logs) (groupByUrl_keys_nodup logs) g hgmem
  have hlg := lookupGroup_groupByUrl logs g.1
  rw [lookupGroup, hfind] at hlg
  by_cases hany : logs.any (fun r => r.url == g.1)
  · rw [if_pos hany] at hlg
    simp only [Option.map_some'] at hlg
    have hg2 : g.2 = logs.filter (fun r => r.url == g.1) := by
      exact Option.some.inj hlg
    rw [hgurl]
    rw [← hg2]
    simp only [alertFor] at halert
    split at halert
    · split at halert
      · cases halert
      · rename_i first rest hs
        cases halert
        have hperm : (first :: rest).Perm g.2 := by
          rw [← hs]
          exact List.perm_insertionSort tsLe g.2
        have hsorted : List.Sorted tsLe (first :: rest) := by
          rw [← hs]
          exact List.sorted_insertionSort tsLe g.2
        have hne : first :: rest ≠ [] := List.cons_ne_nil first rest
        refine ⟨first, (first :: rest).getLast hne, ?_, ?_, rfl, rfl, rfl, ?_⟩
        · exact hperm.mem_iff.mp (List.mem_cons_self first rest)
        · exact hperm.mem_iff.mp (List.getLast_mem hne)
        · intro r hr
          have hrs : r ∈ first :: rest := hperm.mem_iff.mpr hr
          exact ⟨sorted_head_min first rest hsorted r hrs,
            sorted_getLast_max (first :: rest) hne hsorted r hrs⟩
    · cases halert
  · rw [if_neg hany] at hlg
    simp at hlg

/-- Witness for C10: with records of the same url named oldname (timestamp 1)
and newname (timestamp 2), the emitted candidate pairs the oldest name with
the newest status and timestamp. -/
theorem candidate_name_oldest_status_newest_witness :
    ∃ g1 g2, g1 ∈ c10Logs.filter (fun r => r.url == exAlert10.url)
      ∧ g2 ∈ c10Logs.filter (fun r => r.url == exAlert10.url)
      ∧ exAlert10.name = g1.name ∧ exAlert10.last_status = g2.status
      ∧ exAlert10.last_check = g2.timestamp
      ∧ (∀ r ∈ c10Logs.filter (fun r => r.url == exAlert10.url),
          g1.timestamp ≤ r.timestamp ∧ r.timestamp ≤ g2.timestamp) :=
  candidate_name_oldest_status_newest 2 noSupp c10Logs exAlert10 (by decide)

/-- C4: validate_config accepts every configuration meeting the structural
and security constraints, and rejects any configuration containing a target
url whose scheme is not https, a target missing name, url or
expected_status, or more targets than max_urls; any exception during
validation yields false instead of propagating. -/
theorem config_validator_contract :
    (∀ c : JVal, specValidConfig c = true → validate_config c = true)
    ∧ (∀ (c mon tv : JVal) (xs : List JVal) (s : String),
        objGet c "monitoring" = some mon → objGet mon "urls" = some (.jarr xs) →
        tv ∈ xs → objGet tv "url" = some (.jstr s) → (urlparse s).1 ≠ "https" →
        validate_config c = false)
    ∧ (∀ (c mon tv : JVal) (xs : List JVal) (tk : List (String × JVal)),
        objGet c "monitoring" = some mon → objGet mon "urls" = some (.jarr xs) →
        tv ∈ xs → tv = JVal.jobj tk →
        ((objGet tv "name").isNone ∨ (objGet tv "url").isNone
          ∨ (objGet tv "expected_status").isNone) →
        validate_config c = false)
    ∧ (∀ (c mon sec : JVal) (xs : List JVal) (m : Int),
        objGet c "monitoring" = some mon → objGet c "security" = some sec →
        objGet mon "urls" = some (.jarr xs) → objGet sec "max_urls" = some (.jint m) →
        m < (xs.length : Int) → validate_config c = false)
    ∧ (∀ (c : JVal) (e : String),
        validate_config_core c = .error e → validate_config c = false) := by
  refine ⟨validate_config_complete, ?_, ?_, ?_, ?_⟩
  · intro c mon tv xs s hmon hurls htv hurl hnot
    cases hv : validate_config c with
    | false => rfl
    | true =>
      exfalso
      have hsound := ((validate_config_sound c hv mon hmon).2 xs hurls).2 tv htv
      obtain ⟨_, _, _, s2, hs2, hhttps, _⟩ := hsound
      rw [hurl] at hs2
      cases Option.some.inj hs2 with
      | refl => exact hnot ((JVal.jstr.inj (Option.some.inj hs2)).symm ▸ hhttps)
  · intro c mon tv xs tk hmon hurls htv _ hmiss
    cases hv : validate_config c with
    | false => rfl
    | true =>
      exfalso
      have hsound := ((validate_config_sound c hv mon hmon).2 xs hurls).2 tv htv
      obtain ⟨_, hname, hexp, s2, hs2, _, _⟩ := hsound
      rcases hmiss with hmiss | hmiss | hmiss
      · rw [Option.isNone_iff_eq_none] at hmiss
        rw [hmiss] at hname
        cases hname
      · rw [Option.isNone_iff_eq_none] at hmiss
        rw [hmiss] at hs2
        cases hs2
      · rw [Option.isNone_iff_eq_none] at hmiss
        rw [hmiss] at hexp
        cases hexp
  · intro c mon sec xs m hmon hsec hurls hmu hlt
    cases hv : validate_config c with
    | false => rfl
    | true =>
      exfalso
      have hsound := (((validate_config_sound c hv mon hmon).2 xs hurls).1 sec hsec)
      obtain ⟨m2, hm2, hlen⟩ := hsound
      rw [hmu] at hm2
      have : m = m2 := JVal.jint.inj (Option.some.inj hm2)
      omega
  · intro c e herr
    rw [validate_config, herr]

/-- Witness for C4: the fully valid configuration is accepted, and a
non-object configuration document is rejected through the exception path. -/
theorem config_validator_contract_witness :
    validate_config goodConfig = true
    ∧ validate_config (JVal.jstr "nope") = false :=
  ⟨config_validator_contract.1 goodConfig (by decide),
   config_validator_contract.2.2.2.2 (JVal.jstr "nope") "AttributeError: get" rfl⟩

/-- Counterexample to C8 as stated: the configuration equal to a valid one
except for max_retries = -1 is accepted by validate_config, not rejected. -/
theorem negative_max_retries_accepted :
    validate_config cfgNegRetries = true
    ∧ objGet (goodMonitoring (-1)) "max_retries" = some (.jint (-1))
    ∧ ¬ ((0 : Int) ≤ -1) := by
  refine ⟨by decide, rfl, by decide⟩

/-- C8 (amended): validate_config requires max_retries to be an integer (an
accepted configuration always carries an integer max_retries), but does not
check its sign: the negative-retries configuration is accepted. -/
theorem max_retries_integer_only (c mon : JVal)
    (h : validate_config c = true) (hmon : objGet c "monitoring" = some mon) :
    (∃ n : Int, objGet mon "max_retries" = some (.jint n))
    ∧ validate_config cfgNegRetries = true :=
  ⟨(validate_config_sound c h mon hmon).1, by decide⟩

/-- Witness for C8 amended: instantiated at the accepted valid config. -/
theorem max_retries_integer_only_witness :
    (∃ n : Int, objGet (goodMonitoring 3) "max_retries" = some (.jint n))
    ∧ validate_config cfgNegRetries = true :=
  max_retries_integer_only goodConfig (goodMonitoring 3) (by decide) rfl

/-- C5: suppressing a url makes it immediately suppressed; once the window
has elapsed the query answers false and deletes the record; a url with no
record is not suppressed. -/
theorem cooldown_round_trip (state : CooldownState) (url : String)
    (now window later : Nat) (hw : 0 < window) (hl : now + window ≤ later) :
    (is_in_cooldown true window (set_cooldown true state now url) now url).1 = true
    ∧ (is_in_cooldown true window (set_cooldown true state now url) later url).1 = false
    ∧ ((is_in_cooldown true window (set_cooldown true state now url) later url).2.find?
        (fun p => p.1 == blobName url)) = none
    ∧ (state.find? (fun p => p.1 == blobName url) = none →
        is_in_cooldown true window state now url = (false, state)) := by
  have hfind : (set_cooldown true state now url).find? (fun p => p.1 == blobName url)
      = some (blobName url, now) := by
    rw [set_cooldown, if_pos rfl, List.find?_append,
      find?_filter_not_eq_none (fun p => p.1 == blobName url) state]
    simp [List.find?]
  refine ⟨?_, ?_, ?_, ?_⟩
  · rw [is_in_cooldown, if_pos rfl, hfind]
    simp [hw]
  · rw [is_in_cooldown, if_pos rfl, hfind]
    have : ¬ later < now + window := by omega
    simp [this]
  · rw [is_in_cooldown, if_pos rfl, hfind]
    have : ¬ later < now + window := by omega
    simp only [this, if_false]
    exact find?_filter_not_eq_none (fun (p : String × Nat) => p.1 == blobName url) _
  · intro hnone
    rw [is_in_cooldown, if_pos rfl, hnone]

/-- Witness for C5: suppress at time 0 with a 30 minute window, query at 0
(suppressed) and at 30 (expired). -/
theorem cooldown_round_trip_witness :
    (is_in_cooldown true 30 (set_cooldown true [] 0 "https://a.example") 0
      "https://a.example").1 = true
    ∧ (is_in_cooldown true 30 (set_cooldown true [] 0 "https://a.example") 30
      "https://a.example").1 = false :=
  ⟨(cooldown_round_trip [] "https://a.example" 0 30 30 (by omega) (by omega)).1,
   (cooldown_round_trip [] "https://a.example" 0 30 30 (by omega) (by omega)).2.1⟩

end PNMon
